import Mathlib

/-!
Shallow embedding of NanXiao/webcrawler (Go, package `webcrawler`).

The embedded program is the Fetcher-based variant of the package
(`Crawl(url, fetcher)`, `crawlPage`, `parseHTML`, `Page.String`).
Modelling decisions, uniform over the file:

* Go maps are modelled by their key lists (the program only consults
  membership), pointers to `Page` values by URLs while a page is being
  built, and by heap indices into a `List PageG` for rendering, where
  cyclic graphs matter.
* The concurrent tasks are modelled by an explicit serialized work list:
  every access to the shared registry happens inside the
  `visitedPagesLock` critical section in the source, and each page is
  mutated only by the one task that owns its URL, so any concurrent run
  is equivalent to a serialization of the critical sections.
* The Go standard string operations used by the source
  (`strings.TrimSpace`, `strings.HasPrefix`, `strings.Replace`) are
  given executable definitions over the underlying character sequences,
  so that every theorem can be checked on concrete inputs by kernel
  evaluation.
* HTML nodes follow golang.org/x/net/html's `Node` exactly: a node
  carries `FirstChild` and `NextSibling` pointers, with `nil` for their
  absence.
-/

namespace Webcrawler

/-- `strings.HasPrefix(s, pre)`: `pre` is a prefix of `s` (byte-wise in Go,
character-wise here). -/
def goHasPre (s pre : String) : Bool :=
  pre.data.isPrefixOf s.data

/-- `strings.TrimSpace(s)`: strip leading and trailing whitespace. -/
def trimSpace (s : String) : String :=
  ⟨((s.data.dropWhile Char.isWhitespace).reverse.dropWhile Char.isWhitespace).reverse⟩

/-- Character-list core of `strings.Replace(s, old, new, -1)` for a
single-character pattern `old` (the source only replaces the pattern
`"\n"`): every occurrence of `old` is replaced by `new`. -/
def replaceChar (old : Char) (new : List Char) : List Char → List Char
  | [] => []
  | c :: cs => if c == old then new ++ replaceChar old new cs else c :: replaceChar old new cs

/-- `strings.Replace(s, "\n", "\n    ", -1)`: the re-indentation applied to a
recursively rendered subpage. -/
def indentStr (s : String) : String :=
  ⟨replaceChar '\n' "\n    ".data s.data⟩

/-- Key/value attribute of an HTML element (golang.org/x/net/html `Attribute`). -/
structure Attribute where
  key : String
  val : String
deriving DecidableEq, Repr

/-- Node types of golang.org/x/net/html; only `elementNode` triggers
classification in `parseHTML`, every other type only has its children
visited. -/
inductive NodeType where
  | errorNode
  | textNode
  | documentNode
  | elementNode
  | commentNode
  | doctypeNode
deriving DecidableEq, Repr

/-- An HTML node as in golang.org/x/net/html: its type, tag name
(`Node.Data`), attribute list, and the `FirstChild` and `NextSibling`
pointers; `nil` models a null pointer. -/
inductive HtmlNode where
  | nil
  | mk (type : NodeType) (data : String) (attr : List Attribute)
      (firstChild : HtmlNode) (nextSibling : HtmlNode)
deriving DecidableEq

/-- A `Link` as recorded during parsing: the target `*Page` is identified by
its URL (`none` models a nil pointer), together with the `CyclicPage` flag. -/
structure LinkM where
  pageURL : Option String
  cyclicPage : Bool
deriving DecidableEq, Repr

/-- State touched by one task's `parseHTML` run: the registry key set
(`crawler.visitedPages`), the owning page's `Links` and `StaticAssets`, and
the URLs handed to freshly spawned `go crawlPage` tasks, in spawn order. -/
structure ParseState where
  visited : List String
  links : List LinkM
  staticAssets : List String
  spawned : List String
deriving DecidableEq, Repr

/-- The registry's check-and-insert (the `visitedPagesLock` critical section
in the anchor branch of `parseHTML`): look the URL up in `visitedPages`; if
present return `alreadyPresent = true`, otherwise insert a fresh page for it
and return `alreadyPresent = false`. -/
def registerOrGet (visited : List String) (u : String) : List String × Bool :=
  if visited.contains u then (visited, true) else (u :: visited, false)

/-- Anchor-branch URL resolution: an href starting with "/" is resolved by
string concatenation with the crawl domain. -/
def resolveURL (domain u : String) : String :=
  if goHasPre u "/" then domain ++ u else u

/-- Processing of one href value inside the `case "a"` branch: trim, resolve,
same-domain prefix test, check-and-insert under the lock, and — only when the
URL was newly registered (`!ok`) — append the link and spawn a task.  When
the URL was already present the source builds `link` with `CyclicPage = true`
pointing at the referring page, but the `if !ok` guard skips the append and
the spawn, so the state is returned unchanged. -/
def anchorHref (domain pageURL : String) (st : ParseState) (v : String) : ParseState :=
  let linkURL := resolveURL domain (trimSpace v)
  if goHasPre linkURL domain then
    let r := registerOrGet st.visited linkURL
    let ok := r.2
    let link : LinkM := if ok then ⟨some pageURL, true⟩ else ⟨some linkURL, false⟩
    let st' : ParseState := { st with visited := r.1 }
    if !ok then
      { st' with links := st'.links ++ [link], spawned := st'.spawned ++ [linkURL] }
    else st'
  else st

/-- The attribute loop of the `case "a"` branch: `continue` past every
non-href attribute, process the first href, then `break` — attributes after
the first href are never consulted.  An anchor with no href attribute leaves
the state untouched: no placeholder link is appended. -/
def anchorLoop (domain pageURL : String) (st : ParseState) : List Attribute → ParseState
  | [] => st
  | a :: rest =>
    if a.key ≠ "href" then anchorLoop domain pageURL st rest
    else anchorHref domain pageURL st a.val

/-- The attribute loops of the `case "link"` and `case "img", "script"`
branches: append the value of every attribute whose key matches (`"href"`
resp. `"src"`) to `StaticAssets`, verbatim and in order. -/
def assetLoop (k : String) (st : ParseState) : List Attribute → ParseState
  | [] => st
  | a :: rest =>
    assetLoop k (if a.key = k then { st with staticAssets := st.staticAssets ++ [a.val] } else st) rest

/-- The `switch node.Data` classification of one node, guarded by
`node.Type == html.ElementNode`. -/
def elementStep (domain pageURL : String) (t : NodeType) (d : String)
    (attrs : List Attribute) (st : ParseState) : ParseState :=
  if t = .elementNode then
    if d = "a" then anchorLoop domain pageURL st attrs
    else if d = "link" then assetLoop "href" st attrs
    else if d = "img" ∨ d = "script" then assetLoop "src" st attrs
    else st
  else st

/-- The combined effect of `parseHTML` on a node and on every node reachable
from it through `FirstChild`/`NextSibling`: classify the node, process its
child chain (the `for child := node.FirstChild; child != nil; child =
child.NextSibling` loop, each iteration a recursive `parseHTML` call), then
continue with the next sibling (the caller's loop). -/
def parseChain (domain pageURL : String) : HtmlNode → ParseState → ParseState
  | .nil, st => st
  | .mk t d attrs fc ns, st =>
    parseChain domain pageURL ns
      (parseChain domain pageURL fc (elementStep domain pageURL t d attrs st))

/-- `parseHTML(c, node, page)`: classify `node`, then run the child loop over
`node.FirstChild`'s sibling chain.  `node`'s own siblings belong to the
caller's loop and are not touched. -/
def parseHTML (domain pageURL : String) (node : HtmlNode) (st : ParseState) : ParseState :=
  match node with
  | .nil => st
  | .mk t d attrs fc _ => parseChain domain pageURL fc (elementStep domain pageURL t d attrs st)

/-- The fields of one `Page` record (`URL`, `Fail`, `Links`, `StaticAssets`),
with links identified by target URL as in `ParseState`. -/
structure PageOut where
  url : String
  fail : Bool
  links : List LinkM
  staticAssets : List String
deriving DecidableEq, Repr

/-- One task's `crawlPage` body (the Fetcher-based variant), as a function of
the fetcher and parser capabilities.  The semaphore acquire/release and
`wg.Done` bookkeeping are concurrency plumbing with no data effect and are
not represented.  NOTE (faithful to the source): the fetch is issued for
`c.domain`, not for `page.URL`.  On fetch or parse failure the page's `Fail`
flag is set and the task returns without touching `Links`/`StaticAssets`;
otherwise `parseHTML` runs on the parsed root.  Returns the updated page, the
updated registry key set, and the URLs of the tasks spawned. -/
def crawlPage (domain : String) (fetcher : String → Except Unit String)
    (parser : String → Except Unit HtmlNode) (page : PageOut) (visited : List String) :
    PageOut × List String × List String :=
  match fetcher domain with
  | .error _ => ({ page with fail := true }, visited, [])
  | .ok content =>
    match parser content with
    | .error _ => ({ page with fail := true }, visited, [])
    | .ok root =>
      let st := parseHTML domain page.url root ⟨visited, page.links, page.staticAssets, []⟩
      ({ page with links := st.links, staticAssets := st.staticAssets }, st.visited, st.spawned)

/-- Serialized task scheduler: runs pending tasks in order, each on the fresh
page created for it at registration time (`&Page{URL: linkURL}`), threading
the registry key set and collecting each task's finished page.  `fuel` bounds
the number of tasks executed; the registry's monotone growth makes any
finite site terminate, but the embedding keeps the bound explicit. -/
def runTasks (domain : String) (fetcher : String → Except Unit String)
    (parser : String → Except Unit HtmlNode) :
    Nat → List String → List String → List (String × PageOut) → List (String × PageOut)
  | 0, _, _, acc => acc
  | _ + 1, [], _, acc => acc
  | fuel + 1, u :: pend, visited, acc =>
    let r := crawlPage domain fetcher parser ⟨u, false, [], []⟩ visited
    runTasks domain fetcher parser fuel (pend ++ r.2.2) r.2.1 (acc ++ [(u, r.1)])

/-- `Crawl(url, fetcher)`: create the crawler with `domain = url`, register
the seed page before spawning the seed task, run all tasks to completion
(`wg.Wait`), and return the seed's page. -/
def Crawl (fetcher : String → Except Unit String) (parser : String → Except Unit HtmlNode)
    (url : String) (fuel : Nat) : PageOut :=
  let results := runTasks url fetcher parser fuel [url] [url] []
  match results.find? (fun r => r.1 == url) with
  | some r => r.2
  | none => ⟨url, false, [], []⟩

/-- Two concurrent tasks, A and B, each performing the registry's atomic
check-and-insert on the same URL.  The lock serializes the two critical
sections, so every interleaving is equivalent to one of the two execution
orders; `firstIsA` selects which task's critical section runs first.
Returns the `alreadyPresent` answer observed by task A and by task B. -/
def twoTaskRegister (visited : List String) (u : String) (firstIsA : Bool) : Bool × Bool :=
  let r1 := registerOrGet visited u
  let r2 := registerOrGet r1.1 u
  if firstIsA then (r1.2, r2.2) else (r2.2, r1.2)

/-- A `Link` in a finished page graph, for rendering: the `*Page` pointer is
a heap index (`none` models nil), plus the `CyclicPage` flag. -/
structure LinkG where
  page : Option Nat
  cyclicPage : Bool
deriving DecidableEq, Repr

/-- A `Page` in a finished page graph, for rendering: pointers to other pages
are heap indices into a `List PageG`. -/
structure PageG where
  url : String
  fail : Bool
  links : List LinkG
  staticAssets : List String
deriving DecidableEq, Repr

/-- The `staticAssets` accumulation loop of `Page.String`: one
`"  StaticAsset:  %s"` line per asset, separated by newlines. -/
def staticAssetsStr (l : List String) : String :=
  l.foldl (fun acc s =>
    (if acc.length > 0 then acc ++ "\n" else acc) ++ "  StaticAsset:  " ++ s) ""

/-- The link accumulation loop of `Page.String`, with `rec` standing for the
recursive `link.Page.String()` call: for each link, an empty placeholder when
the page pointer is nil; only `"\n    Page: <url>"` when `CyclicPage` is set
(no recursive expansion); otherwise the target's full rendering re-indented
by four spaces.  `none` signals a dangling heap index or exhausted fuel in
`rec` — neither occurs for graphs the crawler builds. -/
def renderLinks (h : List PageG) (rec : Nat → Option String) :
    List LinkG → String → Option String
  | [], acc => some acc
  | l :: ls, acc =>
    let acc := if acc.length > 0 then acc ++ "\n" else acc
    match l.page with
    | none => renderLinks h rec ls (acc ++ "  Links in current page: ")
    | some j =>
      if l.cyclicPage then
        match h[j]? with
        | none => none
        | some t => renderLinks h rec ls (acc ++ "  Links in current page: " ++ ("\n    Page: " ++ t.url))
      else
        match rec j with
        | none => none
        | some s => renderLinks h rec ls (acc ++ "  Links in current page: " ++ indentStr s)

/-- `Page.String` on a page graph held in heap `h`, rendering the page at
index `i`.  `fuel` bounds the recursion depth (the Go recursion is
unbounded).  Mirrors the source: a header line (annotated when `Fail` is
set), the static-asset block, then the link block, each of the last two
preceded and followed by a blank separator and emitted only when non-empty. -/
def pageStringF (h : List PageG) : Nat → Nat → Option String
  | 0 => fun _ => none
  | fuel + 1 => fun i =>
    match h[i]? with
    | none => none
    | some p =>
      match renderLinks h (pageStringF h fuel) p.links "" with
      | none => none
      | some links =>
        let staticAssets := staticAssetsStr p.staticAssets
        let pageStr := if p.fail then "\nPage: " ++ p.url ++ " (Failed to get this URL)\n"
                       else "\nPage: " ++ p.url ++ "\n"
        let pageStr := if staticAssets.length > 0 then pageStr ++ "\n" ++ staticAssets ++ "\n"
                       else pageStr
        let pageStr := if links.length > 0 then pageStr ++ "\n" ++ links ++ "\n" else pageStr
        some pageStr

/-- A non-cyclic edge of a rendering graph: page `i` holds a link to page `j`
whose `CyclicPage` flag is false — the only kind of link `Page.String`
recurses through. -/
def NCEdge (h : List PageG) (i j : Nat) : Prop :=
  ∃ p, h[i]? = some p ∧ ∃ l ∈ p.links, l.page = some j ∧ l.cyclicPage = false

/-- Specification-side contribution of a single element to `StaticAssets`,
following the spec's words: every href attribute value of a link element,
every src attribute value of an img or script element, verbatim and in
attribute order; nothing for other elements or non-element nodes. -/
def elemAssets (t : NodeType) (d : String) (attrs : List Attribute) : List String :=
  if t = .elementNode ∧ d = "link" then (attrs.filter (fun a => a.key == "href")).map (fun a => a.val)
  else if t = .elementNode ∧ (d = "img" ∨ d = "script") then (attrs.filter (fun a => a.key == "src")).map (fun a => a.val)
  else []

/-- Specification-side asset collection over a `FirstChild`/`NextSibling`
chain, following the spec's words: the assets of each node, in document
order, duplicates retained. -/
def assetsOfChain : HtmlNode → List String
  | .nil => []
  | .mk t d attrs fc ns =>
    elemAssets t d attrs ++ (assetsOfChain fc ++ assetsOfChain ns)

/-- Specification-side asset collection for a single node and its subtree
(its own contribution, then its children in document order). -/
def assetsOfNode : HtmlNode → List String
  | .nil => []
  | .mk t d attrs fc _ => assetsOfChain (.mk t d attrs fc .nil)

/-- First href-bearing attribute of an attribute list, if any. -/
def firstHref : List Attribute → Option String
  | [] => none
  | a :: rest => if a.key = "href" then some a.val else firstHref rest

/-- A one-page heap whose only page links cyclically to itself: the smallest
page graph with a cycle. -/
def selfHeap : List PageG :=
  [⟨"example.com", false, [⟨some 0, true⟩], []⟩]

theorem assetLoop_eq (k : String) (attrs : List Attribute) (st : ParseState) :
    assetLoop k st attrs
      = { st with staticAssets :=
            st.staticAssets ++ (attrs.filter (fun a => a.key == k)).map (fun a => a.val) } := by
  induction attrs generalizing st with
  | nil => simp [assetLoop]
  | cons a rest ih =>
    by_cases h : a.key = k
    · simp [assetLoop, h, ih, List.filter_cons]
    · simp [assetLoop, h, ih, List.filter_cons]

theorem anchorHref_eq (d pu : String) (st : ParseState) (v : String) :
    anchorHref d pu st v
      = (let u := resolveURL d (trimSpace v)
         if goHasPre u d then
           if u ∈ st.visited then st
           else { st with
                   visited := u :: st.visited,
                   links := st.links ++ [⟨some u, false⟩],
                   spawned := st.spawned ++ [u] }
         else st) := by
  unfold anchorHref registerOrGet
  by_cases hv : resolveURL d (trimSpace v) ∈ st.visited <;> simp [hv]

theorem anchorHref_staticAssets (d pu : String) (st : ParseState) (v : String) :
    (anchorHref d pu st v).staticAssets = st.staticAssets := by
  rw [anchorHref_eq]
  by_cases hp : goHasPre (resolveURL d (trimSpace v)) d <;>
    by_cases hv : resolveURL d (trimSpace v) ∈ st.visited <;> simp [hp, hv]

theorem anchorLoop_eq (d pu : String) (st : ParseState) (attrs : List Attribute) :
    anchorLoop d pu st attrs
      = (match firstHref attrs with
         | none => st
         | some v => anchorHref d pu st v) := by
  induction attrs with
  | nil => simp [anchorLoop, firstHref]
  | cons a rest ih =>
    by_cases h : a.key = "href"
    · simp [anchorLoop, firstHref, h]
    · simp [anchorLoop, firstHref, h, ih]

theorem anchorLoop_staticAssets (d pu : String) (st : ParseState) (attrs : List Attribute) :
    (anchorLoop d pu st attrs).staticAssets = st.staticAssets := by
  rw [anchorLoop_eq]
  cases firstHref attrs with
  | none => rfl
  | some v => exact anchorHref_staticAssets d pu st v

theorem elementStep_staticAssets (d pu : String) (t : NodeType) (dd : String)
    (attrs : List Attribute) (st : ParseState) :
    (elementStep d pu t dd attrs st).staticAssets = st.staticAssets ++ elemAssets t dd attrs := by
  unfold elementStep elemAssets
  by_cases ht : t = NodeType.elementNode
  · by_cases ha : dd = "a"
    · simp [ht, ha, anchorLoop_staticAssets]
    · by_cases hl : dd = "link"
      · simp [ht, ha, hl, assetLoop_eq]
      · by_cases hi : dd = "img" ∨ dd = "script"
        · have hnl : ¬ dd = "link" := hl
          simp [ht, ha, hl, hi, assetLoop_eq]
        · simp [ht, ha, hl, hi]
  · simp [ht]

theorem parseChain_staticAssets (d pu : String) (n : HtmlNode) (st : ParseState) :
    (parseChain d pu n st).staticAssets = st.staticAssets ++ assetsOfChain n := by
  induction n generalizing st with
  | nil => simp [parseChain, assetsOfChain]
  | mk t dd attrs fc ns ihfc ihns =>
    simp [parseChain, assetsOfChain, ihns, ihfc, elementStep_staticAssets, List.append_assoc]

/-- Claim C7: for every page, each href attribute value of a link element and
each src attribute value of an img or script element is appended verbatim
(untrimmed, unmodified) to that page's `StaticAssets` in document order, and
duplicates are retained: running `parseHTML` on any node extends
`StaticAssets` by exactly the document-order, verbatim asset list of that
node's subtree. -/
theorem parseHTML_appends_assets_in_document_order (d pu : String) (n : HtmlNode)
    (st : ParseState) :
    (parseHTML d pu n st).staticAssets = st.staticAssets ++ assetsOfNode n := by
  cases n with
  | nil => simp [parseHTML, assetsOfNode]
  | mk t dd attrs fc ns =>
    simp [parseHTML, assetsOfNode, assetsOfChain, parseChain_staticAssets,
      elementStep_staticAssets, List.append_assoc]

/-- Claim C10: every link element contributes each of its href attribute
values to `StaticAssets` regardless of its rel attribute (the classification
never consults rel, so rel="icon" behaves exactly like rel="stylesheet"),
and a single element carrying several href (or src) attributes contributes
one entry per attribute. -/
theorem link_element_ignores_rel (d pu : String) (attrs : List Attribute)
    (fc ns : HtmlNode) (st : ParseState) :
    ((parseHTML d pu (.mk .elementNode "link" attrs fc ns) st).staticAssets
        = st.staticAssets
          ++ (attrs.filter (fun a => a.key == "href")).map (fun a => a.val)
          ++ assetsOfChain fc)
    ∧ (∀ r1 r2 : String,
        (parseHTML d pu (.mk .elementNode "link" (⟨"rel", r1⟩ :: attrs) fc ns) st).staticAssets
          = (parseHTML d pu (.mk .elementNode "link" (⟨"rel", r2⟩ :: attrs) fc ns) st).staticAssets)
    ∧ ((parseHTML d pu (.mk .elementNode "img" attrs fc ns) st).staticAssets
        = st.staticAssets
          ++ (attrs.filter (fun a => a.key == "src")).map (fun a => a.val)
          ++ assetsOfChain fc)
    ∧ ((parseHTML d pu (.mk .elementNode "script" attrs fc ns) st).staticAssets
        = st.staticAssets
          ++ (attrs.filter (fun a => a.key == "src")).map (fun a => a.val)
          ++ assetsOfChain fc) := by
  refine ⟨?_, fun r1 r2 => ?_, ?_, ?_⟩ <;>
    simp [parseHTML, parseChain_staticAssets, elementStep_staticAssets, elemAssets,
      List.filter_cons, List.append_assoc]

/-- Claim C6: for every anchor element, only the first href-bearing attribute
is used (the loop continues past other attributes and breaks after the first
href); the value is trimmed of surrounding whitespace; a trimmed value
starting with "/" is resolved by string concatenation with the domain root;
and if the resulting string does not have the domain root as a prefix the
href is discarded — the state is returned unchanged: no link appended, no
URL registered, no task spawned. -/
theorem anchor_uses_first_href_and_discards_foreign (d pu : String) (st : ParseState) :
    (∀ attrs, anchorLoop d pu st attrs
        = (match firstHref attrs with
           | none => st
           | some v => anchorHref d pu st v))
    ∧ (∀ v, goHasPre (trimSpace v) "/" = true →
        resolveURL d (trimSpace v) = d ++ trimSpace v)
    ∧ (∀ v, goHasPre (resolveURL d (trimSpace v)) d = false →
        anchorHref d pu st v = st) := by
  refine ⟨fun attrs => anchorLoop_eq d pu st attrs, fun v hv => ?_, fun v hv => ?_⟩
  · simp [resolveURL, hv]
  · simp [anchorHref, hv]

/-- Witness for C6: an anchor whose first href is an off-domain absolute URL
is discarded entirely (the later same-domain href is never consulted), and a
root-relative href is resolved by concatenation with the domain. -/
theorem anchor_uses_first_href_and_discards_foreign_witness :
    anchorLoop "example.com" "example.com" ⟨["example.com"], [], [], []⟩
        [⟨"rel", "nofollow"⟩, ⟨"href", "http://other.org/"⟩, ⟨"href", "/kept"⟩]
      = ⟨["example.com"], [], [], []⟩
    ∧ resolveURL "example.com" (trimSpace " /a ") = "example.com" ++ trimSpace " /a " := by
  have h := anchor_uses_first_href_and_discards_foreign "example.com" "example.com"
    ⟨["example.com"], [], [], []⟩
  refine ⟨?_, h.2.1 " /a " (by decide)⟩
  rw [h.1]
  exact h.2.2 "http://other.org/" (by decide)

/-- Claim C3: two tasks concurrently invoking the registry's check-and-insert
on the same unregistered URL observe, in every interleaving (modelled by the
serialization order of the two lock-protected critical sections), exactly one
"created" result (`alreadyPresent = false`) and one "already present" result
(`alreadyPresent = true`). -/
theorem registerOrGet_exactly_one_created (visited : List String) (u : String)
    (firstIsA : Bool) (h : visited.contains u = false) :
    ((twoTaskRegister visited u firstIsA).1 = false
        ∧ (twoTaskRegister visited u firstIsA).2 = true)
    ∨ ((twoTaskRegister visited u firstIsA).1 = true
        ∧ (twoTaskRegister visited u firstIsA).2 = false) := by
  simp at h
  cases firstIsA <;> simp [twoTaskRegister, registerOrGet, h]

/-- Witness for C3: on an empty registry, task A creates and task B finds the
URL already present under one order, and symmetrically under the other. -/
theorem registerOrGet_exactly_one_created_witness :
    (((twoTaskRegister [] "example.com" true).1 = false
        ∧ (twoTaskRegister [] "example.com" true).2 = true)
      ∨ ((twoTaskRegister [] "example.com" true).1 = true
        ∧ (twoTaskRegister [] "example.com" true).2 = false))
    ∧ (((twoTaskRegister [] "example.com" false).1 = false
        ∧ (twoTaskRegister [] "example.com" false).2 = true)
      ∨ ((twoTaskRegister [] "example.com" false).1 = true
        ∧ (twoTaskRegister [] "example.com" false).2 = false)) :=
  ⟨registerOrGet_exactly_one_created [] "example.com" true (by decide),
   registerOrGet_exactly_one_created [] "example.com" false (by decide)⟩

theorem runTasks_no_pending (domain : String) (fetcher : String → Except Unit String)
    (parser : String → Except Unit HtmlNode) (fuel : Nat) (visited : List String)
    (acc : List (String × PageOut)) :
    runTasks domain fetcher parser fuel [] visited acc = acc := by
  cases fuel <;> simp [runTasks]

/-- Claim C5: if the fetch of the seed URL fails, `Crawl` returns a page
whose URL is the seed URL, whose `Fail` flag is true, and whose `Links` and
`StaticAssets` are empty.  (For the seed task the fetched URL `c.domain`
coincides with the seed's own URL.) -/
theorem crawl_seed_fetch_failure (fetcher : String → Except Unit String)
    (parser : String → Except Unit HtmlNode) (url : String) (fuel : Nat)
    (h : fetcher url = .error ()) :
    Crawl fetcher parser url (fuel + 1) = ⟨url, true, [], []⟩ := by
  simp [Crawl, runTasks, crawlPage, h, runTasks_no_pending, List.find?]

/-- Witness for C5: a fetcher that always fails makes `Crawl` return the
failed seed page with empty links and assets. -/
theorem crawl_seed_fetch_failure_witness :
    Crawl (fun _ => .error ()) (fun _ => .ok .nil) "example.com" 1
      = ⟨"example.com", true, [], []⟩ :=
  crawl_seed_fetch_failure (fun _ => .error ()) (fun _ => .ok .nil) "example.com" 0 rfl

/-- Claim C9: once a page's `Fail` flag is set, its `Links` and
`StaticAssets` are never populated: a task that finishes with `Fail = true`
(fetch or parse failure — the only writers of `Fail`) leaves the fresh
page's `Links` and `StaticAssets` empty, and no other task ever writes to a
page it does not own. -/
theorem failed_page_stays_empty (domain : String) (fetcher : String → Except Unit String)
    (parser : String → Except Unit HtmlNode) (u : String) (visited : List String)
    (h : (crawlPage domain fetcher parser ⟨u, false, [], []⟩ visited).1.fail = true) :
    (crawlPage domain fetcher parser ⟨u, false, [], []⟩ visited).1.links = []
    ∧ (crawlPage domain fetcher parser ⟨u, false, [], []⟩ visited).1.staticAssets = [] := by
  cases hf : fetcher domain with
  | error e => simp [crawlPage, hf]
  | ok content =>
    cases hp : parser content with
    | error e => simp [crawlPage, hf, hp]
    | ok root => simp [crawlPage, hf, hp] at h

/-- Witness for C9: a failing fetch sets `Fail` and leaves both sequences
empty. -/
theorem failed_page_stays_empty_witness :
    (crawlPage "example.com" (fun _ => .error ()) (fun _ => .ok .nil)
        ⟨"example.com", false, [], []⟩ ["example.com"]).1.links = []
    ∧ (crawlPage "example.com" (fun _ => .error ()) (fun _ => .ok .nil)
        ⟨"example.com", false, [], []⟩ ["example.com"]).1.staticAssets = [] :=
  failed_page_stays_empty "example.com" (fun _ => .error ()) (fun _ => .ok .nil)
    "example.com" ["example.com"] (by decide)

/-- Claim C1 (refuting evaluation): `crawlPage` hands the fetch operation
`c.domain`, not the page's own URL.  A task for page "example.com/test" run
under domain "example.com" succeeds against a fetcher that fails on
"example.com/test" (first conjunct) and fails against a fetcher that
succeeds on "example.com/test" but fails on "example.com" (second conjunct)
— under the claim the outcomes would be exactly opposite. -/
theorem crawlPage_fetches_domain_not_page_url :
    (crawlPage "example.com"
        (fun u => if u == "example.com" then Except.ok "" else Except.error ())
        (fun _ => Except.ok (.mk .documentNode "" [] .nil .nil))
        ⟨"example.com/test", false, [], []⟩ ["example.com", "example.com/test"]).1.fail = false
    ∧ (crawlPage "example.com"
        (fun u => if u == "example.com/test" then Except.ok "" else Except.error ())
        (fun _ => Except.ok (.mk .documentNode "" [] .nil .nil))
        ⟨"example.com/test", false, [], []⟩ ["example.com", "example.com/test"]).1.fail = true := by
  decide

/-- Claim C2 (refuting evaluation): at an anchor whose resolved same-domain
URL is already registered, the source builds a link with `CyclicPage = true`
but both the append and the spawn sit inside `if !ok`, so nothing at all is
appended to the owning page's `Links` (and no task is spawned): the state is
returned unchanged, with `Links` still empty. -/
theorem cyclic_link_never_appended :
    parseHTML "example.com" "example.com"
        (.mk .elementNode "a" [⟨"href", "example.com/test"⟩] .nil .nil)
        ⟨["example.com", "example.com/test"], [], [], []⟩
      = ⟨["example.com", "example.com/test"], [], [], []⟩ := by
  decide

/-- Claim C8 (refuting evaluation): an anchor element with no href attribute
appends nothing to the owning page's `Links` — the only append in the anchor
branch is inside the href loop — so no placeholder link with a nil page is
ever created. -/
theorem anchor_without_href_appends_nothing :
    parseHTML "example.com" "example.com"
        (.mk .elementNode "a" [⟨"alt", "no href"⟩, ⟨"class", "x"⟩] .nil .nil)
        ⟨["example.com"], [], [], []⟩
      = ⟨["example.com"], [], [], []⟩ := by
  decide

theorem renderLinks_isSome (h : List PageG) (r : Nat → Option String)
    (ls : List LinkG) (acc : String)
    (hl : ∀ l ∈ ls, ∀ j, l.page = some j →
        j < h.length ∧ (l.cyclicPage = false → (r j).isSome = true)) :
    (renderLinks h r ls acc).isSome = true := by
  induction ls generalizing acc with
  | nil => simp [renderLinks]
  | cons l ls ih =>
    have hl' : ∀ l' ∈ ls, ∀ j, l'.page = some j →
        j < h.length ∧ (l'.cyclicPage = false → (r j).isSome = true) :=
      fun l' hm => hl l' (List.mem_cons_of_mem _ hm)
    cases hpg : l.page with
    | none => simpa [renderLinks, hpg] using ih _ hl'
    | some j =>
      obtain ⟨hjlt, hcy⟩ := hl l (List.mem_cons_self _ _) j hpg
      cases hcyc : l.cyclicPage with
      | true =>
        have hj : h[j]? = some h[j] := List.getElem?_eq_getElem hjlt
        simpa [renderLinks, hpg, hcyc, hj] using ih _ hl'
      | false =>
        obtain ⟨s, hs⟩ := Option.isSome_iff_exists.mp (hcy hcyc)
        simpa [renderLinks, hpg, hcyc, hs] using ih _ hl'

theorem pageStringF_isSome (h : List PageG) (rank : Nat → Nat)
    (hwf : ∀ p ∈ h, ∀ l ∈ p.links, ∀ j, l.page = some j → j < h.length)
    (hrank : ∀ i j, NCEdge h i j → rank j < rank i) :
    ∀ fuel i, i < h.length → rank i < fuel → (pageStringF h fuel i).isSome = true := by
  intro fuel
  induction fuel with
  | zero => exact fun i _ hr => absurd hr (Nat.not_lt_zero _)
  | succ fuel ih =>
    intro i hi _
    have hpi : h[i]? = some h[i] := List.getElem?_eq_getElem hi
    have hrl : (renderLinks h (pageStringF h fuel) (h[i]).links "").isSome = true := by
      apply renderLinks_isSome
      intro l hml j hpg
      have hjlt : j < h.length := hwf _ (List.getElem_mem hi) _ hml _ hpg
      refine ⟨hjlt, fun hcy => ?_⟩
      have hlt : rank j < rank i := hrank i j ⟨h[i], hpi, l, hml, hpg, hcy⟩
      exact ih j hjlt (by omega)
    obtain ⟨links, hlinks⟩ := Option.isSome_iff_exists.mp hrl
    simp [pageStringF, hpi, hlinks]

theorem renderLinks_rec_irrelevant (h : List PageG) (r1 r2 : Nat → Option String)
    (ls : List LinkG) (hcy : ∀ l ∈ ls, l.cyclicPage = true) :
    ∀ acc, renderLinks h r1 ls acc = renderLinks h r2 ls acc := by
  induction ls with
  | nil => intro acc; rfl
  | cons l ls ih =>
    intro acc
    have hl := hcy l (List.mem_cons_self _ _)
    have hcy' : ∀ l' ∈ ls, l'.cyclicPage = true :=
      fun l' hm => hcy l' (List.mem_cons_of_mem _ hm)
    cases hpg : l.page with
    | none => simp [renderLinks, hpg, ih hcy']
    | some j => simp [renderLinks, hpg, hl, ih hcy']

/-- Claim C4: rendering a page graph whose cycles all pass through links
marked `CyclicPage` (the only graphs the crawler's renderer is specified on;
`rank` witnesses that recursion-carrying non-cyclic edges are acyclic, which
admits self-referencing pages through marked self-loops) terminates: enough
fuel exists for every page, and a page whose links are all cyclic renders
with the minimal fuel — its cyclic links are emitted as target-URL lines
only, with no recursive expansion of the targets' contents. -/
theorem pageString_cycle_safe (h : List PageG) (rank : Nat → Nat)
    (hwf : ∀ p ∈ h, ∀ l ∈ p.links, ∀ j, l.page = some j → j < h.length)
    (hrank : ∀ i j, NCEdge h i j → rank j < rank i) :
    (∀ i, i < h.length → (pageStringF h (rank i + 1) i).isSome = true)
    ∧ (∀ fuel i p, h[i]? = some p → (∀ l ∈ p.links, l.cyclicPage = true) →
        pageStringF h (fuel + 1) i = pageStringF h 1 i) := by
  constructor
  · exact fun i hi =>
      pageStringF_isSome h rank hwf hrank (rank i + 1) i hi (Nat.lt_succ_self _)
  · intro fuel i p hpi hcy
    simp only [pageStringF, hpi]
    rw [renderLinks_rec_irrelevant h (pageStringF h fuel) (fun _ => none) p.links hcy]

/-- Witness for C4: the one-page heap whose page links cyclically to itself —
a self-referencing cycle — renders successfully with minimal fuel, renders
identically at any larger fuel, and its cyclic link shows only the target's
URL. -/
theorem pageString_cycle_safe_witness :
    (pageStringF selfHeap 1 0).isSome = true
    ∧ pageStringF selfHeap 8 0 = pageStringF selfHeap 1 0
    ∧ pageStringF selfHeap 1 0
        = some "\nPage: example.com\n\n  Links in current page: \n    Page: example.com\n" := by
  have hwf : ∀ p ∈ selfHeap, ∀ l ∈ p.links, ∀ j, l.page = some j → j < selfHeap.length := by
    intro p hp l hl j hj
    simp [selfHeap] at hp
    subst hp
    simp at hl
    subst hl
    simp at hj
    simp [selfHeap]
    omega
  have hrank : ∀ i j, NCEdge selfHeap i j → (fun _ => 0) j < (fun _ => 0) i := by
    intro i j hedge
    exfalso
    obtain ⟨p, hp, l, hl, _, hcy⟩ := hedge
    cases i with
    | zero =>
      simp [selfHeap] at hp
      subst hp
      simp at hl
      subst hl
      simp at hcy
    | succ n => simp [selfHeap] at hp
  have h := pageString_cycle_safe selfHeap (fun _ => 0) hwf hrank
  refine ⟨?_, ?_, by decide⟩
  · have := h.1 0 (by decide)
    simpa using this
  · exact h.2 7 0 ⟨"example.com", false, [⟨some 0, true⟩], []⟩ (by decide) (by decide)

end Webcrawler
